import Mathlib

/-!
# Verification of the multi-file auth-state store
  (`src/utils/use-multi-file-auth-state-prisma.ts`)

Shallow embedding of the session-state storage module.  JavaScript values
that flow through the store are modelled by the inductive `JVal` (JSON-like
values that may carry binary `Buffer` payloads); plain JSON trees (the result
of `JSON.stringify`-compatible encoding, with binary payloads already in
their tagged textual form) are modelled by `PJson`.

The textual layer itself (`JSON.stringify`/`JSON.parse` without custom
replacer/reviver, applied to plain trees) is a bijection between plain trees
and their canonical text; it is modelled as the identity transport on
`PJson`, so stored "text" is represented by the parsed tree.  The
`BufferJSON.replacer`/`reviver` stage, which does the interesting work of
tagging and restoring binary payloads, is modelled explicitly
(`encodeVal` / `decodeVal` below).
-/

/-- JavaScript values handled by the store: JSON primitives, binary byte
sequences (`Buffer`/`Uint8Array`, a list of byte values), arrays, and
objects (ordered association lists of fields, as JS objects preserve
insertion order). -/
inductive JVal where
  | null
  | bool (b : Bool)
  | num (n : Int)
  | str (s : String)
  | binary (data : List Nat)
  | arr (elems : List JVal)
  | obj (fields : List (String × JVal))

/-- Plain JSON trees: the image of `JSON.stringify`, where binary payloads
appear only in their tagged textual form. -/
inductive PJson where
  | null
  | bool (b : Bool)
  | num (n : Int)
  | str (s : String)
  | arr (elems : List PJson)
  | obj (fields : List (String × PJson))

/-- JavaScript truthiness of a modelled value (`!creds`, `value ? _ : _`,
`data ? _ : null` in the source all branch on this). -/
def jsTruthy : JVal → Bool
  | .null => false
  | .bool b => b
  | .num n => n != 0
  | .str s => s != ""
  | .binary _ => true
  | .arr _ => true
  | .obj _ => true

/-! ## Key sanitization (`fixFileName`, source lines 15–18)

```ts
const fixFileName = (file: string): string | undefined => {
  if (!file) return undefined;
  return file.replace(/\//g, '__').replace(/:/g, '-');
};
```

The first global replace substitutes every `/` by `__` (modelled as a
character-level flat-map); the second substitutes every `:` by `-`
(single-character, modelled as a map over the result). -/

/-- `file.replace(/\//g, '__')`: every slash becomes two underscores. -/
def sanitizeSlashes (cs : List Char) : List Char :=
  cs.flatMap fun c => if c = '/' then ['_', '_'] else [c]

/-- `·.replace(/:/g, '-')`: every colon becomes a dash. -/
def sanitizeColons (cs : List Char) : List Char :=
  cs.map fun c => if c = ':' then '-' else c

/-- `fixFileName` — `undefined` (here `none`) for the empty (falsy) string,
otherwise both substitutions applied in source order. -/
def fixFileName (file : String) : Option String :=
  if file = "" then none
  else some ⟨sanitizeColons (sanitizeSlashes file.data)⟩

/-- Left inverse of the slash substitution on inputs that contain no
underscore: a double underscore in the output can only have come from a
slash. -/
def desanitize : List Char → List Char
  | [] => []
  | [c] => [c]
  | c :: d :: rest =>
    if c = '_' ∧ d = '_' then '/' :: desanitize rest
    else c :: desanitize (d :: rest)

theorem desanitize_double (l : List Char) :
    desanitize ('_' :: '_' :: l) = '/' :: desanitize l := by
  simp [desanitize]

theorem desanitize_cons_of_ne (c : Char) (l : List Char) (h : c ≠ '_') :
    desanitize (c :: l) = c :: desanitize l := by
  cases l <;> simp [desanitize, h]

theorem sanitizeColons_of_no_colon (cs : List Char) (h : ':' ∉ cs) :
    sanitizeColons cs = cs := by
  induction cs with
  | nil => rfl
  | cons c rest ih =>
    simp only [List.mem_cons, not_or] at h
    simp only [sanitizeColons, List.map_cons]
    rw [if_neg (fun hc => h.1 hc.symm)]
    have := ih h.2
    simpa [sanitizeColons] using this

theorem sanitizeSlashes_cons (c : Char) (rest : List Char) :
    sanitizeSlashes (c :: rest) =
      (if c = '/' then ['_', '_'] else [c]) ++ sanitizeSlashes rest := by
  simp [sanitizeSlashes]

theorem desanitize_sanitizeSlashes (cs : List Char) (h : '_' ∉ cs) :
    desanitize (sanitizeSlashes cs) = cs := by
  induction cs with
  | nil => rfl
  | cons c rest ih =>
    simp only [List.mem_cons, not_or] at h
    have hrest := ih h.2
    rw [sanitizeSlashes_cons]
    by_cases hc : c = '/'
    · subst hc
      rw [if_pos rfl]
      simpa [desanitize_double] using hrest
    · have hcu : c ≠ '_' := fun hcu => h.1 hcu.symm
      rw [if_neg hc, List.singleton_append, desanitize_cons_of_ne c _ hcu, hrest]

theorem no_colon_sanitizeSlashes (cs : List Char) (h : ':' ∉ cs) :
    ':' ∉ sanitizeSlashes cs := by
  intro hmem
  simp only [sanitizeSlashes, List.mem_flatMap] at hmem
  obtain ⟨c, hc, hin⟩ := hmem
  by_cases hslash : c = '/'
  · simp [hslash] at hin
  · simp [hslash] at hin
    exact h (hin ▸ hc)

theorem fixFileName_eq_slashes_only (s : String) (hne : s ≠ "")
    (hc : ':' ∉ s.data) :
    fixFileName s = some ⟨sanitizeSlashes s.data⟩ := by
  rw [fixFileName, if_neg hne,
    sanitizeColons_of_no_colon _ (no_colon_sanitizeSlashes _ hc)]

/-- Keys over the collision-free alphabet: no underscore (so a double
underscore unambiguously denotes a substituted slash) and no colon (so a
dash is always a literal dash). -/
def collisionFreeKey (s : String) : Prop :=
  '_' ∉ s.data ∧ ':' ∉ s.data

instance (s : String) : Decidable (collisionFreeKey s) := by
  unfold collisionFreeKey; infer_instance

/-- C2 (counterexample). The claim "for every pair of distinct keyed-entry
names, the sanitized file names are distinct" is false as stated: the colon
substitution collides with a literal dash.  The two distinct `session`-entry
keys below (a device JID, which contains a colon, and its dash variant)
sanitize to the same file name. -/
theorem fixFileName_collision :
    fixFileName "session-1:2@x" = fixFileName "session-1-2@x" ∧
      ("session-1:2@x" : String) ≠ "session-1-2@x" := by
  constructor
  · rfl
  · decide

/-- C2 (amended). `fixFileName` is injective over keys drawn from the
collision-free alphabet (no underscore and no colon characters); distinct
keys outside it can collide (a colon-bearing key with its dash variant, a
slash-bearing key with its double-underscore variant). -/
theorem fixFileName_injective_on_collision_free (s1 s2 : String)
    (h1 : collisionFreeKey s1) (h2 : collisionFreeKey s2)
    (heq : fixFileName s1 = fixFileName s2) : s1 = s2 := by
  by_cases he1 : s1 = ""
  · by_cases he2 : s2 = ""
    · rw [he1, he2]
    · rw [fixFileName_eq_slashes_only s2 he2 h2.2, he1] at heq
      simp [fixFileName] at heq
  · by_cases he2 : s2 = ""
    · rw [fixFileName_eq_slashes_only s1 he1 h1.2, he2] at heq
      simp [fixFileName] at heq
    · rw [fixFileName_eq_slashes_only s1 he1 h1.2,
        fixFileName_eq_slashes_only s2 he2 h2.2] at heq
      have hdata : sanitizeSlashes s1.data = sanitizeSlashes s2.data := by
        have := Option.some.inj heq
        exact congrArg String.data this
      have : s1.data = s2.data := by
        rw [← desanitize_sanitizeSlashes s1.data h1.1,
          ← desanitize_sanitizeSlashes s2.data h2.1, hdata]
      cases s1; cases s2; exact congrArg String.mk this

/-- C2 (witness for the amended theorem): a concrete collision-free key. -/
theorem fixFileName_injective_on_collision_free_witness :
    collisionFreeKey "pre-key-3" ∧ collisionFreeKey "app/state" ∧
      ("pre-key-3" : String) = "pre-key-3" :=
  ⟨by decide, by decide,
    fixFileName_injective_on_collision_free _ _ (by decide) (by decide) rfl⟩

/-! ## Serialization codec (spec §4.1)

`writeData` serializes with `JSON.stringify(data, BufferJSON.replacer)` and
`readData` deserializes with `JSON.parse(·, BufferJSON.reviver)` (source
lines 101, 127, 133).  `BufferJSON` itself lives in the external `baileys`
package, so the codec is modelled from the spec: binary sub-values are
wrapped with a marker object (`type: "Buffer"` plus the byte sequence) during
encoding and restored to binary form on decoding; all other values are
mapped structurally.  The plain textual layer is the identity transport on
trees (see the header comment), so the codec is stated tree-to-tree. -/

/-- An encoded-tree leaf that is a non-negative number (one byte of a tagged
binary payload). -/
def isNumNonnegP : PJson → Bool
  | .num n => decide (0 ≤ n)
  | _ => false

/-- A source-value leaf that is a non-negative number. -/
def isNumNonnegJ : JVal → Bool
  | .num n => decide (0 ≤ n)
  | _ => false

/-- Does an encoded object have exactly the binary-marker shape
(`type: "Buffer"` plus a `data` array of byte numbers)? -/
def isBufferTagged (fs : List (String × PJson)) : Bool :=
  match fs with
  | [(k1, .str s), (k2, .arr ds)] =>
      k1 == "type" && s == "Buffer" && k2 == "data" && ds.all isNumNonnegP
  | _ => false

/-- The byte payload of a marker-shaped encoded object. -/
def taggedBytes (fs : List (String × PJson)) : List Nat :=
  match fs with
  | [_, (_, .arr ds)] => ds.map fun d => match d with | .num n => n.toNat | _ => 0
  | _ => []

/-- Does a source object coincide, field for field, with the binary-marker
shape?  Such objects are indistinguishable from an encoded binary payload. -/
def isBufferShaped (fs : List (String × JVal)) : Bool :=
  match fs with
  | [(k1, .str s), (k2, .arr ds)] =>
      k1 == "type" && s == "Buffer" && k2 == "data" && ds.all isNumNonnegJ
  | _ => false

mutual
/-- Modelled from the spec (§4.1): the encoding stage of the codec
(`BufferJSON.replacer` under `JSON.stringify`, external to this repository).
Binary sub-values are wrapped with the marker; everything else is mapped
structurally. -/
def encodeVal : JVal → PJson
  | .null => .null
  | .bool b => .bool b
  | .num n => .num n
  | .str s => .str s
  | .binary data =>
      .obj [("type", .str "Buffer"),
            ("data", .arr (data.map fun b => .num (Int.ofNat b)))]
  | .arr xs => .arr (encodeList xs)
  | .obj fs => .obj (encodeFields fs)

def encodeList : List JVal → List PJson
  | [] => []
  | x :: xs => encodeVal x :: encodeList xs

def encodeFields : List (String × JVal) → List (String × PJson)
  | [] => []
  | ⟨k, v⟩ :: fs => (k, encodeVal v) :: encodeFields fs
end

mutual
/-- Modelled from the spec (§4.1): the decoding stage of the codec
(`BufferJSON.reviver` under `JSON.parse`, external to this repository).
Marker-shaped objects are restored to binary payloads; everything else is
mapped structurally. -/
def decodeVal : PJson → JVal
  | .null => .null
  | .bool b => .bool b
  | .num n => .num n
  | .str s => .str s
  | .arr xs => .arr (decodeList xs)
  | .obj fs =>
      if isBufferTagged fs then .binary (taggedBytes fs)
      else .obj (decodeFields fs)

def decodeList : List PJson → List JVal
  | [] => []
  | x :: xs => decodeVal x :: decodeList xs

def decodeFields : List (String × PJson) → List (String × JVal)
  | [] => []
  | ⟨k, v⟩ :: fs => (k, decodeVal v) :: decodeFields fs
end

mutual
/-- No sub-object of the value coincides with the binary-marker shape (the
domain on which the codec round-trips). -/
def noBufferShapedVal : JVal → Bool
  | .arr xs => noBufferShapedList xs
  | .obj fs => !isBufferShaped fs && noBufferShapedFields fs
  | _ => true

def noBufferShapedList : List JVal → Bool
  | [] => true
  | x :: xs => noBufferShapedVal x && noBufferShapedList xs

def noBufferShapedFields : List (String × JVal) → Bool
  | [] => true
  | ⟨_, v⟩ :: fs => noBufferShapedVal v && noBufferShapedFields fs
end

theorem isNumNonnegP_encode (x : JVal) :
    isNumNonnegP (encodeVal x) = isNumNonnegJ x := by
  cases x <;> simp [encodeVal, isNumNonnegP, isNumNonnegJ]

theorem encodeList_all_num (ds : List JVal) :
    (encodeList ds).all isNumNonnegP = ds.all isNumNonnegJ := by
  induction ds with
  | nil => simp [encodeList]
  | cons d ds ih => simp [encodeList, isNumNonnegP_encode, ih]

theorem isBufferTagged_encodeFields (fs : List (String × JVal)) :
    isBufferTagged (encodeFields fs) = isBufferShaped fs := by
  match fs with
  | [] => simp [encodeFields, isBufferTagged, isBufferShaped]
  | [⟨k1, v1⟩] =>
    cases v1 <;> simp [encodeFields, encodeVal, isBufferTagged, isBufferShaped]
  | [⟨k1, v1⟩, ⟨k2, v2⟩] =>
    cases v1 <;> cases v2 <;>
      simp [encodeFields, encodeVal, isBufferTagged, isBufferShaped,
        encodeList_all_num]
  | ⟨k1, v1⟩ :: ⟨k2, v2⟩ :: f3 :: rest =>
    cases v1 <;> cases v2 <;>
      simp [encodeFields, encodeVal, isBufferTagged, isBufferShaped]

theorem taggedBytes_map (bs : List Nat) :
    (List.map (fun b => PJson.num (Int.ofNat b)) bs).map
      (fun d => match d with | PJson.num n => n.toNat | _ => 0) = bs := by
  induction bs with
  | nil => rfl
  | cons b bs ih => simp_all

theorem decode_encode_binary (bs : List Nat) :
    decodeVal (encodeVal (.binary bs)) = .binary bs := by
  have htag : isBufferTagged
      [("type", .str "Buffer"),
       ("data", .arr (bs.map fun b => .num (Int.ofNat b)))] = true := by
    simp [isBufferTagged, List.all_map, isNumNonnegP, Int.ofNat_nonneg]
  simp only [encodeVal, decodeVal, htag, if_pos, taggedBytes]
  exact congrArg JVal.binary (taggedBytes_map bs)

theorem jval_strong_ind (P : JVal → Prop)
    (h : ∀ v, (∀ w, sizeOf w < sizeOf v → P w) → P v) : ∀ v, P v := by
  have aux : ∀ n, ∀ w : JVal, sizeOf w < n → P w := by
    intro n
    induction n with
    | zero => intro w hw; omega
    | succ n ih =>
      intro w hw
      exact h w fun u hu => ih u (by omega)
  intro v
  exact h v fun u hu => aux (sizeOf v) u hu

theorem decodeList_encodeList (xs : List JVal)
    (hp : ∀ x ∈ xs, noBufferShapedVal x = true → decodeVal (encodeVal x) = x)
    (h : noBufferShapedList xs = true) :
    decodeList (encodeList xs) = xs := by
  induction xs with
  | nil => simp [encodeList, decodeList]
  | cons x xs ih =>
    simp only [noBufferShapedList, Bool.and_eq_true] at h
    simp only [encodeList, decodeList]
    rw [hp x (List.mem_cons_self x xs) h.1,
      ih (fun y hy hby => hp y (List.mem_cons_of_mem x hy) hby) h.2]

theorem decodeFields_encodeFields (fs : List (String × JVal))
    (hp : ∀ f ∈ fs, noBufferShapedVal f.2 = true → decodeVal (encodeVal f.2) = f.2)
    (h : noBufferShapedFields fs = true) :
    decodeFields (encodeFields fs) = fs := by
  induction fs with
  | nil => simp [encodeFields, decodeFields]
  | cons f fs ih =>
    obtain ⟨k, v⟩ := f
    simp only [noBufferShapedFields, Bool.and_eq_true] at h
    simp only [encodeFields, decodeFields]
    rw [hp ⟨k, v⟩ (List.mem_cons_self _ fs) h.1,
      ih (fun g hg hbg => hp g (List.mem_cons_of_mem _ hg) hbg) h.2]

/-- C8 (amended). The codec round-trips exactly on every value — nested
mappings, sequences, primitives and binary byte sequences — none of whose
mappings coincides with the binary-marker shape; a mapping that is itself
marker-shaped decodes to a binary value instead (see
`decode_encode_roundtrip_fails`). -/
theorem decode_encode_roundtrip (v : JVal) (h : noBufferShapedVal v = true) :
    decodeVal (encodeVal v) = v := by
  revert h
  induction v using jval_strong_ind with
  | h v ih =>
    intro h
    match v with
    | .null => simp [encodeVal, decodeVal]
    | .bool b => simp [encodeVal, decodeVal]
    | .num n => simp [encodeVal, decodeVal]
    | .str s => simp [encodeVal, decodeVal]
    | .binary bs => exact decode_encode_binary bs
    | .arr xs =>
      have hlist : noBufferShapedList xs = true := by
        simpa [noBufferShapedVal] using h
      have hsz : ∀ x ∈ xs, sizeOf x < sizeOf (JVal.arr xs) := by
        intro x hx
        have := List.sizeOf_lt_of_mem hx
        simp only [JVal.arr.sizeOf_spec]
        omega
      simp only [encodeVal, decodeVal]
      rw [decodeList_encodeList xs (fun x hx hbx => ih x (hsz x hx) hbx) hlist]
    | .obj fs =>
      have hshape : isBufferShaped fs = false ∧ noBufferShapedFields fs = true := by
        have h' := h
        simp only [noBufferShapedVal, Bool.and_eq_true, Bool.not_eq_true'] at h'
        exact h'
      have hsz : ∀ f ∈ fs, sizeOf f.2 < sizeOf (JVal.obj fs) := by
        intro f hf
        have h1 := List.sizeOf_lt_of_mem hf
        obtain ⟨k, v'⟩ := f
        simp only [JVal.obj.sizeOf_spec]
        simp only [Prod.mk.sizeOf_spec] at h1
        omega
      simp only [encodeVal, decodeVal, isBufferTagged_encodeFields, hshape.1,
        Bool.false_eq_true, if_false]
      rw [decodeFields_encodeFields fs (fun f hf hbf => ih f.2 (hsz f hf) hbf)
        hshape.2]

/-- A plain mapping that coincides with the binary-marker shape: the encoded
form of the binary payload `[]` and of this mapping are identical text. -/
def bufferLookalike : JVal := .obj [("type", .str "Buffer"), ("data", .arr [])]

/-- C8 (counterexample). The round-trip claim is false as stated: the
marker-shaped mapping `{type: "Buffer", data: []}` encodes to itself and
decodes to a binary payload, not to the original mapping. -/
theorem decode_encode_roundtrip_fails :
    decodeVal (encodeVal bufferLookalike) ≠ bufferLookalike := by
  have h1 : decodeVal (encodeVal bufferLookalike) = .binary [] := by
    simp [bufferLookalike, encodeVal, encodeFields, encodeList, decodeVal,
      isBufferTagged, taggedBytes]
  rw [h1]
  intro hcontra
  exact JVal.noConfusion hcontra

/-- C8 (witness for the amended theorem): a value with nested mappings,
sequences, primitives and a binary payload, free of marker-shaped mappings,
round-trips to itself. -/
theorem decode_encode_roundtrip_witness :
    noBufferShapedVal
        (.obj [("k", .binary [7, 255]),
               ("l", .arr [.num (-2), .str "x", .null, .bool true])]) = true ∧
      decodeVal (encodeVal
        (.obj [("k", .binary [7, 255]),
               ("l", .arr [.num (-2), .str "x", .null, .bool true])])) =
        (.obj [("k", .binary [7, 255]),
               ("l", .arr [.num (-2), .str "x", .null, .bool true])]) := by
  have h : noBufferShapedVal
      (.obj [("k", .binary [7, 255]),
             ("l", .arr [.num (-2), .str "x", .null, .bool true])]) = true := by
    simp [noBufferShapedVal, noBufferShapedList, noBufferShapedFields,
      isBufferShaped]
  exact ⟨h, decode_encode_roundtrip _ h⟩

/-! ## Relational credentials store (spec §4.2, source lines 31–85)

`prismaRepository.session` is repository code outside `src/`; its operations
are modelled from the spec (§6): "record keyed by session identifier with a
single serialized-text field; supports find-by-key, insert, update-by-key,
delete-by-key".  The serialized-text column is represented by the parsed
value it denotes (identity transport of the plain textual layer), so
`JSON.stringify(keyJson)` at save and `JSON.parse(auth.creds)` at load are
the identity and the column stores the `keyJson` value itself.  The table is
a row list, so that duplicate records are representable and countable. -/

/-- One persisted Credentials Record (Prisma `session` row). -/
structure SessionRow where
  sessionId : String
  creds : JVal

/-- Modelled from the spec (§6): `session.findUnique({ where: { sessionId } })`
— find-by-key, the first row carrying the key. -/
def findUniqueSession (db : List SessionRow) (sid : String) : Option SessionRow :=
  db.find? fun r => r.sessionId == sid

/-- Modelled from the spec (§6): `session.create({ data })` — insert. -/
def createSession (db : List SessionRow) (row : SessionRow) : List SessionRow :=
  db ++ [row]

/-- Modelled from the spec (§6): `session.update({ where: { sessionId },
data: { creds } })` — update-by-key of the creds column. -/
def updateSessionCreds (db : List SessionRow) (sid : String) (v : JVal) :
    List SessionRow :=
  db.map fun r => if r.sessionId == sid then { r with creds := v } else r

/-- Modelled from the spec (§6): `session.delete({ where: { sessionId } })`. -/
def deleteSessionRows (db : List SessionRow) (sid : String) : List SessionRow :=
  db.filter fun r => !(r.sessionId == sid)

/-- How many Credentials Records a session identifier has. -/
def countSession (db : List SessionRow) (sid : String) : Nat :=
  (db.filter fun r => r.sessionId == sid).length

/-- `keyExists` (source lines 31–41), applied to the outcome of the backend
`findUnique` call: `!!key` on success; a thrown backend error is caught,
logged and resolved as `false`. -/
def keyExists (findResult : Except Unit (Option SessionRow)) : Bool :=
  match findResult with
  | .ok key => key.isSome
  | .error _ => false

/-- `keyExists` against a concrete table with the backend succeeding. -/
def keyExistsDb (db : List SessionRow) (sid : String) : Bool :=
  keyExists (.ok (findUniqueSession db sid))

/-- `getAuthKey` (source lines 65–75), applied to the outcome of the backend
`findUnique` call: `auth ? JSON.parse(auth.creds) : null` on success (the
parse is the identity transport); a thrown backend error is caught, logged
and resolved as `null`. -/
def getAuthKey (findResult : Except Unit (Option SessionRow)) : JVal :=
  match findResult with
  | .ok (some auth) => auth.creds
  | .ok none => .null
  | .error _ => .null

/-- `getAuthKey` against a concrete table with the backend succeeding. -/
def getAuthKeyDb (db : List SessionRow) (sid : String) : JVal :=
  getAuthKey (.ok (findUniqueSession db sid))

/-- `saveKey` (source lines 43–63): check existence, then create when no
record was found, else update — the stored column is `JSON.stringify(keyJson)`,
i.e. `keyJson` under the identity transport. -/
def saveKey (db : List SessionRow) (sid : String) (keyJson : JVal) :
    List SessionRow :=
  if keyExistsDb db sid then updateSessionCreds db sid keyJson
  else createSession db ⟨sid, keyJson⟩

/-- `deleteAuthKey` (source lines 77–85): best-effort delete (errors are
swallowed; deleting a missing record leaves the table unchanged). -/
def deleteAuthKey (db : List SessionRow) (sid : String) : List SessionRow :=
  deleteSessionRows db sid

/-! ## Canonical JSON text

`writeData` builds `JSON.stringify(data, BufferJSON.replacer)` — a JS
*string* whose content is the canonical text of the encoded tree — and, for
the `creds` entry, hands that string to `saveKey`.  To keep this double
serialization visible, the canonical text of a plain tree is printed for
real. -/

/-- JSON string-literal escaping. -/
def escapeChar (c : Char) : List Char :=
  if c = '"' then ['\\', '"']
  else if c = '\\' then ['\\', '\\']
  else if c = '\n' then ['\\', 'n']
  else if c = '\t' then ['\\', 't']
  else if c = '\r' then ['\\', 'r']
  else [c]

/-- A JSON string literal. -/
def printJsonStr (s : String) : String :=
  "\"" ++ String.mk (s.data.flatMap escapeChar) ++ "\""

mutual
/-- Canonical text of a plain JSON tree (what `JSON.stringify` prints). -/
def printP : PJson → String
  | .null => "null"
  | .bool true => "true"
  | .bool false => "false"
  | .num n => toString n
  | .str s => printJsonStr s
  | .arr xs => "[" ++ printPList xs ++ "]"
  | .obj fs => "\x7b" ++ printPFields fs ++ "\x7d"

def printPList : List PJson → String
  | [] => ""
  | [x] => printP x
  | x :: y :: xs => printP x ++ "," ++ printPList (y :: xs)

def printPFields : List (String × PJson) → String
  | [] => ""
  | [⟨k, v⟩] => printJsonStr k ++ ":" ++ printP v
  | ⟨k, v⟩ :: g :: fs => printJsonStr k ++ ":" ++ printP v ++ "," ++ printPFields (g :: fs)
end

/-- The exact JS value `writeData` hands to `saveKey` for the `creds` entry:
the string `JSON.stringify(data, BufferJSON.replacer)` (source lines
101–104). -/
def credsPayload (data : JVal) : JVal :=
  .str (printP (encodeVal data))

/-! ## Cache and filesystem backends (spec §4.3–§4.4, source lines 20–29,
95–97, 107–111, 125–133, 146–155) -/

/-- JS-style keyed assignment on an ordered association list: overwrite in
place when the key is bound, append otherwise. -/
def assocSet {α β : Type} [BEq α] (l : List (α × β)) (k : α) (v : β) :
    List (α × β) :=
  if l.any fun p => p.1 == k then l.map fun p => if p.1 == k then (k, v) else p
  else l ++ [(k, v)]

/-- Distributed-cache state: the namespaced hash map, flattened to an
association list keyed by (namespace, field).  Modelled from the spec
(§4.3; `CacheService` is repository code outside `src/`): the cache keeps
the structural JSON representation of a stored value, in which binary
payloads survive only in tagged form — hence fields hold `PJson`. -/
abbrev CacheState := List ((String × String) × PJson)

/-- `cache.hSet(sessionId, key, data)` — modelled from the spec (§4.3). -/
def hSet (c : CacheState) (ns f : String) (v : JVal) : CacheState :=
  assocSet c (ns, f) (encodeVal v)

/-- `cache.hGet(sessionId, key)` — modelled from the spec (§4.3). -/
def hGet (c : CacheState) (ns f : String) : Option PJson :=
  List.lookup (ns, f) c

/-- `cache.hDelete(sessionId, key) -> bool` — modelled from the spec (§4.3):
true iff a field was actually removed. -/
def hDelete (c : CacheState) (ns f : String) : Bool × CacheState :=
  ((List.lookup (ns, f) c).isSome, c.filter fun p => !(p.1 == (ns, f)))

/-- Modelled from the spec (§6): the configured instance root
(`INSTANCE_DIR` comes from config code outside `src/`). -/
def INSTANCE_DIR : String := "instances"

/-- `path.join(INSTANCE_DIR, sessionId, fixFileName(key) + ".json")` (source
lines 94–95); JS renders `undefined` into the template literal when
`fixFileName` returns it. -/
def localFile (sid key : String) : String :=
  INSTANCE_DIR ++ "/" ++ sid ++ "/" ++
    (match fixFileName key with | some s => s | none => "undefined") ++ ".json"

/-- Truthiness of a structural JSON value (the cache read's `data ? _ : null`
check happens before decoding). -/
def pTruthy : PJson → Bool
  | .null => false
  | .bool b => b
  | .num n => n != 0
  | .str s => s != ""
  | .arr _ => true
  | .obj _ => true

/-- The three persistence backends a session's facade touches.  File
contents, like every serialized text, are represented by their parsed
trees. -/
structure Stores where
  db : List SessionRow
  cache : CacheState
  files : List (String × PJson)

/-- `fs.unlink`: deleting a missing file fails (ENOENT), per Node semantics
and spec §4.4 ("a missing file on removal is an error that propagates"). -/
def fsUnlink (files : List (String × PJson)) (name : String) :
    Except Unit (List (String × PJson)) :=
  if (List.lookup name files).isSome then
    .ok (files.filter fun p => !(p.1 == name))
  else .error ()

/-! ## The facade's entry operations (source lines 99–167) -/

/-- `writeData(data, key)` (source lines 99–117): serialize with the codec;
route `creds` to `saveKey`, other keys to the cache (when enabled, the
structured value is handed to `hSet`) or to a file holding the serialized
text.  Backend write primitives are deterministic here, so every path
succeeds; a thrown error would be logged and re-thrown. -/
def writeData (redis : Bool) (st : Stores) (sid : String) (data : JVal)
    (key : String) : Stores × Except Unit JVal :=
  if key = "creds" then
    ({ st with db := saveKey st.db sid (credsPayload data) }, .ok .null)
  else if redis then
    ({ st with cache := hSet st.cache sid key data }, .ok .null)
  else
    ({ st with files := assocSet st.files (localFile sid key) (encodeVal data) },
      .ok (.bool true))

/-- `readData(key)` (source lines 119–138): `creds` comes from `getAuthKey`;
cache mode re-serializes and decodes the structural value
(`JSON.parse(JSON.stringify(data), BufferJSON.reviver)`) when it is truthy;
filesystem mode returns `null` for a missing file and decodes the file text
otherwise.  Any error on the way is caught, logged and resolved as `null`. -/
def readData (redis : Bool) (st : Stores) (sid key : String) : JVal :=
  if key = "creds" then getAuthKeyDb st.db sid
  else if redis then
    match hGet st.cache sid key with
    | some t => if pTruthy t then decodeVal t else .null
    | none => .null
  else
    match List.lookup (localFile sid key) st.files with
    | some t => decodeVal t
    | none => .null

/-- `removeData(key)` (source lines 140–160): `creds` is deleted best-effort
via `deleteAuthKey`; in cache mode a false `hDelete` return is escalated to
a thrown error; in filesystem mode `fs.unlink` of a missing file throws.
Errors of the non-creds branches are logged and re-thrown. -/
def removeData (redis : Bool) (st : Stores) (sid key : String) :
    Stores × Except Unit JVal :=
  if key = "creds" then
    ({ st with db := deleteAuthKey st.db sid }, .ok .null)
  else if redis then
    let d := hDelete st.cache sid key
    if !d.1 then ({ st with cache := d.2 }, .error ())
    else ({ st with cache := d.2 }, .ok (.bool d.1))
  else
    match fsUnlink st.files (localFile sid key) with
    | .ok files' => ({ st with files := files' }, .ok (.bool true))
    | .error e => (st, .error e)

/-- Modelled from the spec (§6): `initAuthCreds` of the external protocol
layer, "a factory function that produces fresh initial credentials" — a
deterministic initializer returning a fresh, non-null credentials object
with binary-bearing key material. -/
def initAuthCreds : JVal :=
  .obj [("noiseKey",
          .obj [("private", .binary [1, 2, 3]), ("public", .binary [4, 5, 6])]),
        ("registrationId", .num 42)]

/-- The initializer portion of `useMultiFileAuthStatePrisma` (source lines
163–167): load the `creds` entry; when it is falsy, synthesize fresh
credentials and persist them through `writeData`.  Returns the stores after
initialization and the in-memory `creds` value.  (`fs.mkdir` of line 97
creates the session folder and touches none of the modelled stores.) -/
def useMultiFileAuthStatePrisma (redis : Bool) (st : Stores) (sid : String) :
    Stores × JVal :=
  let creds := readData redis st sid "creds"
  if jsTruthy creds then (st, creds)
  else ((writeData redis st sid initAuthCreds "creds").1, initAuthCreds)

/-! ## Claims about the relational credentials path (C1, C6, C7) -/

theorem findUniqueSession_append_none (db : List SessionRow) (sid : String)
    (r : SessionRow) (h : findUniqueSession db sid = none) :
    findUniqueSession (db ++ [r]) sid =
      if r.sessionId == sid then some r else none := by
  induction db with
  | nil =>
    by_cases hr : r.sessionId == sid
    · simp [findUniqueSession, List.find?, hr]
    · simp [findUniqueSession, List.find?, hr]
  | cons a rest ih =>
    by_cases ha : (a.sessionId == sid) = true
    · exfalso
      rw [findUniqueSession,
        List.find?_cons_of_pos (p := fun r => r.sessionId == sid) rest ha] at h
      exact Option.noConfusion h
    · rw [findUniqueSession,
        List.find?_cons_of_neg (p := fun r => r.sessionId == sid) rest
          (by simpa using ha)] at h
      rw [findUniqueSession, List.cons_append,
        List.find?_cons_of_neg (p := fun r => r.sessionId == sid) (rest ++ [r])
          (by simpa using ha)]
      exact ih h

/-- C1 (`useMultiFileAuthStatePrisma`, source lines 163–167; `saveKey`, lines
43–63; `getAuthKey`, lines 65–75).  For every session identifier with no
prior Credentials Record, the facade initializer produces the non-null fresh
credentials value and persists it such that a subsequent credential load
(`readData('creds')`, i.e. `getAuthKey`) returns a value equal to the one
that was persisted: the exact payload handed to `saveKey`, namely the
serialized credentials string `credsPayload initAuthCreds`. -/
theorem useMultiFileAuthStatePrisma_fresh_session (redis : Bool) (st : Stores)
    (sid : String) (h : findUniqueSession st.db sid = none) :
    (useMultiFileAuthStatePrisma redis st sid).2 = initAuthCreds ∧
      (useMultiFileAuthStatePrisma redis st sid).2 ≠ JVal.null ∧
      readData redis (useMultiFileAuthStatePrisma redis st sid).1 sid "creds" =
        credsPayload initAuthCreds ∧
      getAuthKeyDb (useMultiFileAuthStatePrisma redis st sid).1.db sid =
        credsPayload initAuthCreds := by
  have hread : readData redis st sid "creds" = JVal.null := by
    simp [readData, getAuthKeyDb, getAuthKey, h]
  have hfac : useMultiFileAuthStatePrisma redis st sid =
      ((writeData redis st sid initAuthCreds "creds").1, initAuthCreds) := by
    rw [useMultiFileAuthStatePrisma, hread]
    simp [jsTruthy]
  have hkey : keyExistsDb st.db sid = false := by
    simp [keyExistsDb, keyExists, h]
  have hwrite : (writeData redis st sid initAuthCreds "creds").1 =
      { st with db := createSession st.db ⟨sid, credsPayload initAuthCreds⟩ } := by
    simp [writeData, saveKey, hkey]
  have hload : getAuthKeyDb (createSession st.db ⟨sid, credsPayload initAuthCreds⟩) sid =
      credsPayload initAuthCreds := by
    rw [getAuthKeyDb, createSession, findUniqueSession_append_none st.db sid _ h]
    simp [getAuthKey]
  refine ⟨by rw [hfac], by rw [hfac]; simp [initAuthCreds], ?_, ?_⟩
  · rw [hfac, hwrite]
    simpa [readData] using hload
  · rw [hfac, hwrite]
    exact hload

/-- C1 (witness): a fresh session against empty stores. -/
theorem useMultiFileAuthStatePrisma_fresh_session_witness :
    findUniqueSession ([] : List SessionRow) "session-a" = none ∧
      (useMultiFileAuthStatePrisma false ⟨[], [], []⟩ "session-a").2 =
        initAuthCreds ∧
      readData false (useMultiFileAuthStatePrisma false ⟨[], [], []⟩ "session-a").1
          "session-a" "creds" = credsPayload initAuthCreds := by
  have h : findUniqueSession ([] : List SessionRow) "session-a" = none := rfl
  have := useMultiFileAuthStatePrisma_fresh_session false ⟨[], [], []⟩ "session-a" h
  exact ⟨h, this.1, this.2.2.1⟩

/-- C6 (`keyExists`, source lines 31–41; `getAuthKey`, lines 65–75).
Credential existence-check and load never propagate backend errors: a thrown
`findUnique` resolves `keyExists` to `false` and `getAuthKey` to `null`, and
`keyExists` reports `true` only when the backend actually returned a
record. -/
theorem keyExists_getAuthKey_swallow_errors :
    keyExists (.error ()) = false ∧ getAuthKey (.error ()) = JVal.null ∧
      ∀ r : Except Unit (Option SessionRow),
        keyExists r = true → ∃ row, r = .ok (some row) := by
  refine ⟨rfl, rfl, ?_⟩
  intro r hr
  match r with
  | .ok (some row) => exact ⟨row, rfl⟩
  | .ok none => simp [keyExists] at hr
  | .error () => simp [keyExists] at hr

/-- C6 (witness): a concrete successful lookup. -/
theorem keyExists_getAuthKey_swallow_errors_witness :
    keyExists (.ok (some ⟨"s", JVal.null⟩)) = true ∧
      ∃ row, (.ok (some ⟨"s", JVal.null⟩) : Except Unit (Option SessionRow)) =
        .ok (some row) :=
  ⟨rfl, keyExists_getAuthKey_swallow_errors.2.2 _ rfl⟩

theorem countSession_update (db : List SessionRow) (sid : String) (v : JVal)
    (sid' : String) :
    countSession (updateSessionCreds db sid v) sid' = countSession db sid' := by
  unfold countSession updateSessionCreds
  rw [List.filter_map, List.length_map]
  congr 1
  apply List.filter_congr
  intro r hr
  by_cases h : r.sessionId = sid <;> simp [h]

theorem countSession_append_single (db : List SessionRow) (r : SessionRow)
    (sid : String) :
    countSession (db ++ [r]) sid =
      countSession db sid + (if r.sessionId == sid then 1 else 0) := by
  by_cases h : (r.sessionId == sid) = true <;>
    simp [countSession, List.filter_append, h]

theorem findUniqueSession_eq_none_iff (db : List SessionRow) (sid : String) :
    findUniqueSession db sid = none ↔ countSession db sid = 0 := by
  rw [findUniqueSession, List.find?_eq_none, countSession,
    List.length_eq_zero, List.filter_eq_nil_iff]

theorem findUniqueSession_update_self (db : List SessionRow) (sid : String)
    (v : JVal) (r : SessionRow) (h : findUniqueSession db sid = some r) :
    findUniqueSession (updateSessionCreds db sid v) sid =
      some { r with creds := v } := by
  induction db with
  | nil => exact absurd h (by simp [findUniqueSession])
  | cons a rest ih =>
    by_cases ha : (a.sessionId == sid) = true
    · rw [findUniqueSession,
        List.find?_cons_of_pos (p := fun x : SessionRow => x.sessionId == sid)
          rest ha] at h
      have hr : a = r := Option.some.inj h
      subst hr
      have hhead : (({ sessionId := a.sessionId, creds := v } : SessionRow).sessionId
          == sid) = true := ha
      rw [updateSessionCreds, List.map_cons, if_pos ha]
      exact List.find?_cons_of_pos
        (p := fun x : SessionRow => x.sessionId == sid) _ hhead
    · have hna : ¬ (a.sessionId == sid) = true := ha
      rw [findUniqueSession,
        List.find?_cons_of_neg (p := fun x : SessionRow => x.sessionId == sid)
          rest hna] at h
      have hrec := ih h
      have hcons : updateSessionCreds (a :: rest) sid v =
          a :: updateSessionCreds rest sid v := by
        rw [updateSessionCreds, updateSessionCreds, List.map_cons, if_neg hna]
      rw [hcons, findUniqueSession,
        List.find?_cons_of_neg (p := fun x : SessionRow => x.sessionId == sid)
          _ hna]
      exact hrec

theorem countSession_saveKey_le (db : List SessionRow) (sid' : String)
    (v : JVal) (sid : String) (h : countSession db sid ≤ 1) :
    countSession (saveKey db sid' v) sid ≤ 1 := by
  rw [saveKey]
  by_cases hex : keyExistsDb db sid' = true
  · rw [if_pos hex, countSession_update]
    exact h
  · rw [if_neg hex, createSession, countSession_append_single]
    by_cases hss : (sid' == sid) = true
    · have hsid : sid' = sid := by simpa using hss
      subst hsid
      have hnone : findUniqueSession db sid' = none := by
        have hx : ¬ (findUniqueSession db sid').isSome = true := hex
        exact Option.not_isSome_iff_eq_none.mp hx
      have h0 : countSession db sid' = 0 :=
        (findUniqueSession_eq_none_iff db sid').mp hnone
      simp [h0, hss]
    · simp [hss]
      omega

/-- C7 (`saveKey`, source lines 43–63).  `saveKey` has create-or-update
semantics preserving the one-record-per-session invariant: any sequence of
`saveKey` calls keeps at most one Credentials Record per session identifier,
and two sequential calls for the same identifier from a record-free table
leave exactly one record, holding the second call's value (the first call
creates, the second updates). -/
theorem saveKey_one_record_per_session :
    (∀ (sid : String) (calls : List (String × JVal)) (db : List SessionRow),
        countSession db sid ≤ 1 →
        countSession (calls.foldl (fun d c => saveKey d c.1 c.2) db) sid ≤ 1) ∧
      ∀ (sid : String) (v1 v2 : JVal) (db : List SessionRow),
        countSession db sid = 0 →
        countSession (saveKey (saveKey db sid v1) sid v2) sid = 1 ∧
          findUniqueSession (saveKey (saveKey db sid v1) sid v2) sid =
            some ⟨sid, v2⟩ := by
  constructor
  · intro sid calls
    induction calls with
    | nil => intro db h; exact h
    | cons c rest ih =>
      intro db h
      rw [List.foldl_cons]
      exact ih _ (countSession_saveKey_le db c.1 c.2 sid h)
  · intro sid v1 v2 db h0
    have hnone : findUniqueSession db sid = none :=
      (findUniqueSession_eq_none_iff db sid).mpr h0
    have hex1 : keyExistsDb db sid = false := by
      simp [keyExistsDb, keyExists, hnone]
    have hdb1 : saveKey db sid v1 = db ++ [⟨sid, v1⟩] := by
      rw [saveKey, if_neg (by simp [hex1]), createSession]
    have hfind1 : findUniqueSession (db ++ [⟨sid, v1⟩]) sid = some ⟨sid, v1⟩ := by
      rw [findUniqueSession_append_none db sid _ hnone]
      simp
    have hex2 : keyExistsDb (db ++ [⟨sid, v1⟩]) sid = true := by
      simp [keyExistsDb, keyExists, hfind1]
    have hdb2 : saveKey (saveKey db sid v1) sid v2 =
        updateSessionCreds (db ++ [⟨sid, v1⟩]) sid v2 := by
      rw [hdb1, saveKey, if_pos hex2]
    constructor
    · rw [hdb2, countSession_update, countSession_append_single]
      simp [h0]
    · rw [hdb2, findUniqueSession_update_self _ _ _ _ hfind1]

/-- C7 (witness): the invariant and the two-call scenario on the empty
table. -/
theorem saveKey_one_record_per_session_witness :
    countSession ([] : List SessionRow) "s" ≤ 1 ∧
      countSession ([("s", JVal.num 1)].foldl
        (fun d c => saveKey d c.1 c.2) ([] : List SessionRow)) "s" ≤ 1 ∧
      countSession ([] : List SessionRow) "s" = 0 ∧
      countSession (saveKey (saveKey [] "s" (.num 1)) "s" (.num 2)) "s" = 1 ∧
      findUniqueSession (saveKey (saveKey [] "s" (.num 1)) "s" (.num 2)) "s" =
        some ⟨"s", .num 2⟩ := by
  have h1 : countSession ([] : List SessionRow) "s" ≤ 1 := by
    simp [countSession]
  have h0 : countSession ([] : List SessionRow) "s" = 0 := by
    simp [countSession]
  have hsc := saveKey_one_record_per_session.2 "s" (.num 1) (.num 2) [] h0
  exact ⟨h1, saveKey_one_record_per_session.1 "s" [("s", JVal.num 1)] [] h1,
    h0, hsc.1, hsc.2⟩

/-! ## Bulk set (`state.keys.set`, source lines 186–196) and claims C3–C5 -/

/-- One task pushed by the `keys.set` loop. -/
inductive KeyOp where
  | write (key : String) (value : JVal)
  | remove (key : String)

/-- The task list built by `state.keys.set`: for every category and id of
the categorized data, `value ? writeData(value, key) : removeData(key)` with
`key = category + "-" + id`.  JS objects are modelled as ordered association
lists; `for…in` visits their keys in insertion order. -/
def setTasks (data : List (String × List (String × JVal))) : List KeyOp :=
  data.flatMap fun ce =>
    ce.2.map fun iv =>
      if jsTruthy iv.2 then KeyOp.write (ce.1 ++ "-" ++ iv.1) iv.2
      else KeyOp.remove (ce.1 ++ "-" ++ iv.1)

/-- Did the modelled operation reject? -/
def isErrorE : Except Unit JVal → Bool
  | .error _ => true
  | .ok _ => false

/-- Run one task against the stores. -/
def runOp (redis : Bool) (sid : String) (st : Stores) :
    KeyOp → Stores × Except Unit JVal
  | .write key v => writeData redis st sid v key
  | .remove key => removeData redis st sid key

/-- `await Promise.all(tasks)` over the `keys.set` task list: every task
runs (all state effects apply) and the bulk call rejects iff some task
rejected.  The concurrent fan-out is executed in list order as one
linearization. -/
def runSet (redis : Bool) (st : Stores) (sid : String)
    (data : List (String × List (String × JVal))) : Stores × Bool :=
  (setTasks data).foldl
    (fun acc op =>
      let r := runOp redis sid acc.1 op
      (r.1, acc.2 || isErrorE r.2)) (st, false)

/-- C3 (counterexample).  The claim "if value is present, the entry is
written via writeData; if value is null or absent, the entry is removed"
is false as stated: `keys.set` branches on JS truthiness (`value ? … : …`,
source line 192), so the present — but falsy — value `false` is routed to
`removeData`, not to `writeData`. -/
theorem setTasks_false_value_removed :
    setTasks [("session", [("1", JVal.bool false)])] =
        [KeyOp.remove "session-1"] ∧
      JVal.bool false ≠ JVal.null := by
  exact ⟨rfl, fun h => JVal.noConfusion h⟩

/-- C3 (amended).  `keys.set` routes every (category, id, value) triple by
truthiness: a truthy value is written under `category-id`, a falsy value
(null and absent included) is removed — and a null value is never written,
so null means delete, never "store null". -/
theorem setTasks_truthy_dichotomy :
    (∀ (data : List (String × List (String × JVal))) (cat : String)
        (entries : List (String × JVal)) (id : String) (v : JVal),
        (cat, entries) ∈ data → (id, v) ∈ entries →
        (jsTruthy v = true → KeyOp.write (cat ++ "-" ++ id) v ∈ setTasks data) ∧
          (jsTruthy v = false → KeyOp.remove (cat ++ "-" ++ id) ∈ setTasks data)) ∧
      ∀ (data : List (String × List (String × JVal))) (k : String),
        KeyOp.write k JVal.null ∉ setTasks data := by
  constructor
  · intro data cat entries id v hce hiv
    constructor
    · intro hv
      rw [setTasks]
      refine List.mem_flatMap.mpr ⟨(cat, entries), hce, List.mem_map.mpr
        ⟨(id, v), hiv, ?_⟩⟩
      simp [hv]
    · intro hv
      rw [setTasks]
      refine List.mem_flatMap.mpr ⟨(cat, entries), hce, List.mem_map.mpr
        ⟨(id, v), hiv, ?_⟩⟩
      simp [hv]
  · intro data k hmem
    rw [setTasks] at hmem
    obtain ⟨ce, _, hin⟩ := List.mem_flatMap.mp hmem
    obtain ⟨iv, _, heq⟩ := List.mem_map.mp hin
    by_cases ht : jsTruthy iv.2 = true
    · rw [if_pos ht] at heq
      have hv : iv.2 = JVal.null := (KeyOp.write.injEq _ _ _ _).mp heq |>.2
      rw [hv] at ht
      exact Bool.noConfusion ht
    · rw [if_neg ht] at heq
      exact KeyOp.noConfusion heq

/-- C3 (witness for the amended theorem): one truthy and one null entry in a
concrete categorized-data object. -/
theorem setTasks_truthy_dichotomy_witness :
    (("pre-key", [("3", JVal.obj []), ("4", JVal.null)]) ∈
        [("pre-key", [("3", JVal.obj []), ("4", JVal.null)])]) ∧
      ("3", JVal.obj []) ∈ [("3", JVal.obj []), ("4", JVal.null)] ∧
      jsTruthy (JVal.obj []) = true ∧
      KeyOp.write "pre-key-3" (JVal.obj []) ∈
        setTasks [("pre-key", [("3", JVal.obj []), ("4", JVal.null)])] ∧
      jsTruthy JVal.null = false ∧
      KeyOp.remove "pre-key-4" ∈
        setTasks [("pre-key", [("3", JVal.obj []), ("4", JVal.null)])] := by
  have h1 : (("pre-key", [("3", JVal.obj []), ("4", JVal.null)]) ∈
      [("pre-key", [("3", JVal.obj []), ("4", JVal.null)])]) :=
    List.mem_singleton.mpr rfl
  have h3 : ("3", JVal.obj []) ∈ [("3", JVal.obj []), ("4", JVal.null)] :=
    List.mem_cons_self _ _
  have h4 : ("4", JVal.null) ∈ [("3", JVal.obj []), ("4", JVal.null)] :=
    List.mem_cons_of_mem _ (List.mem_cons_self _ _)
  refine ⟨h1, h3, rfl, ?_, rfl, ?_⟩
  · exact (setTasks_truthy_dichotomy.1 _ "pre-key" _ "3" (JVal.obj [])
      h1 h3).1 rfl
  · exact (setTasks_truthy_dichotomy.1 _ "pre-key" _ "4" JVal.null
      h1 h4).2 rfl

theorem data_append (s t : String) : (s ++ t).data = s.data ++ t.data := rfl

theorem category_id_key_ne_creds (cat id : String) :
    cat ++ "-" ++ id ≠ "creds" := by
  intro h
  have hdash : '-' ∈ (cat ++ "-" ++ id).data := by
    rw [data_append, data_append]
    exact List.mem_append_left _ (List.mem_append_right _ (by decide))
  rw [h] at hdash
  exact absurd hdash (by decide)

/-- C4 (`removeData`, source lines 140–160; `keys.set`, lines 186–196).  In
filesystem mode, removing a keyed entry whose file does not exist raises and
the error propagates (whereas `readData` tolerates absence and resolves
null), so a bulk `keys.set` holding a null value for that entry rejects as a
whole. -/
theorem removeData_missing_file_rejects (st : Stores) (sid cat id : String)
    (h : List.lookup (localFile sid (cat ++ "-" ++ id)) st.files = none) :
    readData false st sid (cat ++ "-" ++ id) = JVal.null ∧
      (removeData false st sid (cat ++ "-" ++ id)).2 = .error () ∧
      (runSet false st sid [(cat, [(id, JVal.null)])]).2 = true := by
  have hk := category_id_key_ne_creds cat id
  have hread : readData false st sid (cat ++ "-" ++ id) = JVal.null := by
    rw [readData, if_neg hk, if_neg (by simp), h]
  have hrem : (removeData false st sid (cat ++ "-" ++ id)).2 = .error () := by
    rw [removeData, if_neg hk, if_neg (by simp), fsUnlink, h]
    simp
  refine ⟨hread, hrem, ?_⟩
  have htasks : setTasks [(cat, [(id, JVal.null)])] =
      [KeyOp.remove (cat ++ "-" ++ id)] := by
    simp [setTasks, jsTruthy]
  rw [runSet, htasks, List.foldl_cons, List.foldl_nil]
  simp only [runOp, Bool.false_or]
  rw [hrem]
  rfl

/-- C4 (witness): empty stores, entry `pre-key-3`. -/
theorem removeData_missing_file_rejects_witness :
    List.lookup (localFile "s" ("pre-key" ++ "-" ++ "3")) (Stores.files ⟨[], [], []⟩)
        = none ∧
      (removeData false ⟨[], [], []⟩ "s" ("pre-key" ++ "-" ++ "3")).2 = .error () ∧
      (runSet false ⟨[], [], []⟩ "s" [("pre-key", [("3", JVal.null)])]).2 = true := by
  have h : List.lookup (localFile "s" ("pre-key" ++ "-" ++ "3"))
      (Stores.files ⟨[], [], []⟩) = none := rfl
  have := removeData_missing_file_rejects ⟨[], [], []⟩ "s" "pre-key" "3" h
  exact ⟨h, this.2.1, this.2.2⟩

/-- C5 (`removeData`, source lines 146–152).  In cache mode, `removeData`
fails (throws) whenever `hDelete` reports that no field was removed, and it
returns successfully only when `hDelete` reported `true`. -/
theorem removeData_cache_hDelete_contract (st : Stores) (sid key : String)
    (hk : key ≠ "creds") :
    ((hDelete st.cache sid key).1 = false →
        (removeData true st sid key).2 = .error ()) ∧
      ∀ v, (removeData true st sid key).2 = .ok v →
        (hDelete st.cache sid key).1 = true := by
  constructor
  · intro hdel
    rw [removeData, if_neg hk, if_pos rfl]
    simp [hdel]
  · intro v hok
    by_cases hdel : (hDelete st.cache sid key).1 = true
    · exact hdel
    · exfalso
      rw [removeData, if_neg hk, if_pos rfl] at hok
      simp only [Bool.not_eq_true] at hdel
      simp [hdel] at hok

/-- C5 (witness): removing a missing cache field fails; removing a present
one succeeds and `hDelete` reported `true`. -/
theorem removeData_cache_hDelete_contract_witness :
    ("pre-key-1" : String) ≠ "creds" ∧
      (hDelete (Stores.cache ⟨[], [], []⟩) "s" "pre-key-1").1 = false ∧
      (removeData true ⟨[], [], []⟩ "s" "pre-key-1").2 = .error () ∧
      (removeData true ⟨[], [(("s", "pre-key-1"), PJson.null)], []⟩ "s"
          "pre-key-1").2 = .ok (.bool true) ∧
      (hDelete (Stores.cache ⟨[], [(("s", "pre-key-1"), PJson.null)], []⟩) "s"
          "pre-key-1").1 = true := by
  have hk : ("pre-key-1" : String) ≠ "creds" := by decide
  have hfalse : (hDelete (Stores.cache ⟨[], [], []⟩) "s" "pre-key-1").1 = false :=
    rfl
  refine ⟨hk, hfalse,
    (removeData_cache_hDelete_contract ⟨[], [], []⟩ "s" "pre-key-1" hk).1 hfalse,
    ?_, ?_⟩
  · rfl
  · exact (removeData_cache_hDelete_contract
      ⟨[], [(("s", "pre-key-1"), PJson.null)], []⟩ "s" "pre-key-1" hk).2
      (.bool true) rfl

/-! ## Bulk get (`state.keys.get`, source lines 173–185) and claims C9–C10

The keyed-entry read path of `readData` is stated as a function of the raw
backend read outcome (`hGet` hit/miss or file hit/miss, with `.error`
standing for a thrown backend read): the surrounding `try`/`catch` resolves
every failure to null.  `keys.get` then fans out one read per requested id;
an oracle `backend : String → Except Unit (Option PJson)` gives each key's
outcome. -/

/-- The keyed-entry branch of `readData` (source lines 125–137) applied to
the backend outcome of its key.  In cache mode a truthy hit is re-serialized
and decoded, a falsy one yields null; in filesystem mode a hit is decoded
directly; a miss yields null; a thrown error is caught, logged and resolved
null. -/
def readDataKeyed (redis : Bool) (r : Except Unit (Option PJson)) : JVal :=
  match r with
  | .error _ => .null
  | .ok none => .null
  | .ok (some t) => if redis then (if pTruthy t then decodeVal t else .null)
      else decodeVal t

theorem readData_eq_readDataKeyed (redis : Bool) (st : Stores) (sid key : String)
    (hk : key ≠ "creds") :
    readData redis st sid key = readDataKeyed redis
      (.ok (if redis then hGet st.cache sid key
            else List.lookup (localFile sid key) st.files)) := by
  rw [readData, if_neg hk]
  cases redis with
  | false =>
    cases h : List.lookup (localFile sid key) st.files <;>
      simp [readDataKeyed, h]
  | true =>
    cases h : hGet st.cache sid key <;> simp [readDataKeyed, h]

/-- Modelled from the spec (§6): the protocol layer's
`proto.Message.AppStateSyncKeyData.fromObject`, "a value-reconstruction
function for app-state synchronization key material ... treated as an opaque
capability" — modelled as the identity on the structured value. -/
def appStateSyncKeyDataFromObject (v : JVal) : JVal := v

/-- The value `keys.get` binds for one id (source lines 177–181): read
`${type}-${id}`, then reconstruct app-state-sync-key material when the type
matches and the value is truthy. -/
def entryValue (redis : Bool) (backend : String → Except Unit (Option PJson))
    (ty id : String) : JVal :=
  let value := readDataKeyed redis (backend (ty ++ "-" ++ id))
  if ty = "app-state-sync-key" ∧ jsTruthy value = true then
    appStateSyncKeyDataFromObject value
  else value

/-- `state.keys.get(type, ids)` (source lines 173–185): start from the empty
object and assign `data[id] = value` for every requested id (the concurrent
fan-out is executed in list order; each binding depends only on its own
read). -/
def keysGet (redis : Bool) (backend : String → Except Unit (Option PJson))
    (ty : String) (ids : List String) : List (String × JVal) :=
  ids.foldl (fun data id => assocSet data id (entryValue redis backend ty id)) []

theorem lookup_map_set {β : Type} (l : List (String × β)) (k k' : String)
    (v : β) (h : (k' == k) = false) :
    List.lookup k' (l.map fun p => if p.1 == k then (k, v) else p) =
      List.lookup k' l := by
  induction l with
  | nil => rfl
  | cons p rest ih =>
    obtain ⟨a, b⟩ := p
    by_cases hp : (a == k) = true
    · have hak : a = k := by simpa using hp
      subst hak
      simp only [List.map_cons, if_pos hp, List.lookup_cons, h]
      exact ih
    · simp only [List.map_cons, if_neg hp, List.lookup_cons]
      cases hka : (k' == a) with
      | false => simp only [hka]; exact ih
      | true => simp only [hka]

theorem lookup_append_single_ne {β : Type} (l : List (String × β))
    (k k' : String) (v : β) (h : (k' == k) = false) :
    List.lookup k' (l ++ [(k, v)]) = List.lookup k' l := by
  induction l with
  | nil => simp [List.lookup, h]
  | cons p rest ih =>
    obtain ⟨a, b⟩ := p
    simp only [List.cons_append, List.lookup_cons]
    cases hka : (k' == a) with
    | false => simp only [hka]; exact ih
    | true => simp only [hka]

theorem lookup_assocSet_self {β : Type} (l : List (String × β)) (k : String)
    (v : β) : List.lookup k (assocSet l k v) = some v := by
  rw [assocSet]
  by_cases hany : (l.any fun p => p.1 == k) = true
  · rw [if_pos hany]
    induction l with
    | nil => simp at hany
    | cons p rest ih =>
      obtain ⟨a, b⟩ := p
      by_cases hp : (a == k) = true
      · simp only [List.map_cons, if_pos hp, List.lookup_cons]
        simp
      · have hrest : (rest.any fun p => p.1 == k) = true := by
          simp only [List.any_cons] at hany
          rcases Bool.or_eq_true_iff.mp hany with h1 | h2
          · exact absurd h1 hp
          · exact h2
        have hak : a ≠ k := by simpa using hp
        have hka : (k == a) = false := beq_eq_false_iff_ne.mpr (Ne.symm hak)
        simp only [List.map_cons, if_neg hp, List.lookup_cons, hka]
        exact ih hrest
  · rw [if_neg hany]
    induction l with
    | nil => simp [List.lookup]
    | cons p rest ih =>
      obtain ⟨a, b⟩ := p
      simp only [List.any_cons, Bool.or_eq_true, not_or] at hany
      have hak : a ≠ k := by simpa using hany.1
      have hka : (k == a) = false := beq_eq_false_iff_ne.mpr (Ne.symm hak)
      simp only [List.cons_append, List.lookup_cons, hka]
      exact ih (by simpa using hany.2)

theorem lookup_assocSet_other {β : Type} (l : List (String × β))
    (k k' : String) (v : β) (h : (k' == k) = false) :
    List.lookup k' (assocSet l k v) = List.lookup k' l := by
  rw [assocSet]
  by_cases hany : (l.any fun p => p.1 == k) = true
  · rw [if_pos hany]
    exact lookup_map_set l k k' v h
  · rw [if_neg hany]
    exact lookup_append_single_ne l k k' v h

theorem keysGet_loop_lookup (redis : Bool)
    (backend : String → Except Unit (Option PJson)) (ty : String)
    (ids : List String) (acc : List (String × JVal))
    (hacc : ∀ k v, List.lookup k acc = some v →
      v = entryValue redis backend ty k) (k : String) :
    List.lookup k (ids.foldl
        (fun data id => assocSet data id (entryValue redis backend ty id)) acc) =
      if k ∈ ids then some (entryValue redis backend ty k)
      else List.lookup k acc := by
  induction ids generalizing acc with
  | nil => simp
  | cons i rest ih =>
    rw [List.foldl_cons]
    have hacc' : ∀ k0 v0,
        List.lookup k0 (assocSet acc i (entryValue redis backend ty i)) = some v0 →
        v0 = entryValue redis backend ty k0 := by
      intro k0 v0 h0
      by_cases hk0 : k0 = i
      · subst hk0
        rw [lookup_assocSet_self] at h0
        exact (Option.some.inj h0).symm
      · rw [lookup_assocSet_other _ _ _ _ (beq_eq_false_iff_ne.mpr hk0)] at h0
        exact hacc k0 v0 h0
    rw [ih _ hacc']
    by_cases hk : k ∈ rest
    · rw [if_pos hk, if_pos (List.mem_cons_of_mem i hk)]
    · rw [if_neg hk]
      by_cases hki : k = i
      · subst hki
        rw [lookup_assocSet_self, if_pos (List.mem_cons_self k rest)]
      · rw [lookup_assocSet_other _ _ _ _ (beq_eq_false_iff_ne.mpr hki),
          if_neg (by simp [hki, hk])]

/-- C10 (`state.keys.get`, source lines 173–185).  The mapping returned by
the bulk get binds exactly the requested ids and no others: every requested
id is bound to its entry value (the decoded stored value, null when absent
or unreadable, reconstructed for the app-state-sync-key category), and no
key outside the request appears. -/
theorem keysGet_binds_exactly_requested (redis : Bool)
    (backend : String → Except Unit (Option PJson)) (ty : String)
    (ids : List String) (k : String) :
    (k ∈ ids → List.lookup k (keysGet redis backend ty ids) =
        some (entryValue redis backend ty k)) ∧
      (k ∉ ids → List.lookup k (keysGet redis backend ty ids) = none) := by
  have hmain := keysGet_loop_lookup redis backend ty ids []
    (by intro k0 v0 h0; exact absurd h0 (by simp [List.lookup])) k
  constructor
  · intro hk
    rw [keysGet, hmain, if_pos hk]
  · intro hk
    rw [keysGet, hmain, if_neg hk]
    rfl

/-- C10 (witness): two requested ids against an all-miss backend, a third id
not requested. -/
theorem keysGet_binds_exactly_requested_witness :
    ("3" ∈ ["3", "4"]) ∧
      List.lookup "3" (keysGet false (fun _ => .ok none) "pre-key" ["3", "4"]) =
        some (entryValue false (fun _ => .ok none) "pre-key" "3") ∧
      ("7" ∉ (["3", "4"] : List String)) ∧
      List.lookup "7" (keysGet false (fun _ => .ok none) "pre-key" ["3", "4"]) =
        none := by
  have h3 : ("3" : String) ∈ ["3", "4"] := by decide
  have h7 : ("7" : String) ∉ (["3", "4"] : List String) := by decide
  exact ⟨h3,
    (keysGet_binds_exactly_requested false (fun _ => .ok none) "pre-key"
      ["3", "4"] "3").1 h3, h7,
    (keysGet_binds_exactly_requested false (fun _ => .ok none) "pre-key"
      ["3", "4"] "7").2 h7⟩

/-- C9 (`state.keys.get`, source lines 173–185; `readData`, lines 119–138).
A read failure for one id does not abort the reads of the other ids: the
failing id resolves to null (its backend error is caught inside `readData`)
and every other requested id is still bound to its own read value. -/
theorem keysGet_read_failure_isolated (redis : Bool)
    (backend : String → Except Unit (Option PJson)) (ty : String)
    (ids : List String) (id1 : String) (h1 : id1 ∈ ids)
    (hfail : backend (ty ++ "-" ++ id1) = .error ()) :
    List.lookup id1 (keysGet redis backend ty ids) = some JVal.null ∧
      ∀ id2, id2 ∈ ids → List.lookup id2 (keysGet redis backend ty ids) =
        some (entryValue redis backend ty id2) := by
  have hnull : entryValue redis backend ty id1 = JVal.null := by
    simp [entryValue, hfail, readDataKeyed, jsTruthy]
  have hmain := fun k => keysGet_loop_lookup redis backend ty ids []
    (by intro k0 v0 h0; exact absurd h0 (by simp [List.lookup])) k
  constructor
  · rw [keysGet, hmain id1, if_pos h1, hnull]
  · intro id2 h2
    rw [keysGet, hmain id2, if_pos h2]

/-- C9 (witness): the backend fails for `pre-key-3` and misses for the
rest; id `3` resolves to null and id `4` keeps its own read value. -/
theorem keysGet_read_failure_isolated_witness :
    ("3" ∈ ["3", "4"]) ∧
      ((fun k => if k = "pre-key-3" then Except.error () else Except.ok none)
          ("pre-key" ++ "-" ++ "3") :
        Except Unit (Option PJson)) = .error () ∧
      List.lookup "3" (keysGet false
          (fun k => if k = "pre-key-3" then .error () else .ok none)
          "pre-key" ["3", "4"]) = some JVal.null ∧
      List.lookup "4" (keysGet false
          (fun k => if k = "pre-key-3" then .error () else .ok none)
          "pre-key" ["3", "4"]) =
        some (entryValue false
          (fun k => if k = "pre-key-3" then .error () else .ok none)
          "pre-key" "4") := by
  have h3 : ("3" : String) ∈ ["3", "4"] := by decide
  have h4 : ("4" : String) ∈ ["3", "4"] := by decide
  have hfail : ((fun k => if k = "pre-key-3" then Except.error () else Except.ok none)
      ("pre-key" ++ "-" ++ "3") : Except Unit (Option PJson)) = .error () := by
    simp
  have ht := keysGet_read_failure_isolated false
    (fun k => if k = "pre-key-3" then .error () else .ok none)
    "pre-key" ["3", "4"] "3" h3 hfail
  exact ⟨h3, hfail, ht.1, ht.2 "4" h4⟩
